import Mathlib

/-!
Verification of the fuzzy_finder repository's windowing/view engine and
selection session, as a shallow embedding in Lean 4.

Rust `usize` values (capacity, index, skip, list lengths) are modelled as
`Nat`; the `i64` fuzzy score as `Int`.  Rust slice indexing panics are made
explicit: the render functions return `Option`, with `none` for a panic.
Saturating subtraction (`usize::saturating_sub`) is `Nat` subtraction, which
coincides with it.
-/

/-- Item model from `src/item.rs`: a labelled payload. -/
structure Item (α : Type) where
  name : String
  data : α
deriving DecidableEq, Repr

/-- Scored item from `src/item.rs` (`Item::with_score`): an item plus its
fuzzy score and the matched character positions. -/
structure ScoredItem (α : Type) where
  item : Item α
  score : Int
  fuzzy_indices : List Nat
deriving DecidableEq, Repr

/-- Rendered window from `src/view/mod.rs` (`enum Render`). -/
inductive Render (α : Type) where
  | empty
  | nonEmpty (above : List α) (selected : α) (below : List α)
deriving DecidableEq, Repr

/-- Selected entry of a rendered window (`Render::selected`). -/
def Render.selected {α : Type} : Render α → Option α
  | .empty => none
  | .nonEmpty _ s _ => some s

/-- Number of entries above the selection (`Render::num_above`). -/
def Render.num_above {α : Type} : Render α → Nat
  | .empty => 0
  | .nonEmpty above _ _ => above.length

/-- Total number of rendered entries (`Render::len`):
`below.len() + 1 + above.len()`. -/
def Render.len {α : Type} : Render α → Nat
  | .empty => 0
  | .nonEmpty above _ below => below.length + 1 + above.length

/-- Scrolling view state from `src/view/scrolling.rs`. -/
structure ScrollingView where
  capacity : Nat
  index : Nat
  skip : Nat
deriving DecidableEq, Repr

/-- Constructor `ScrollingView::new`.  The Rust code asserts `capacity > 0`;
theorems about reachable states carry `0 < capacity` as a hypothesis. -/
def ScrollingView.new (capacity : Nat) : ScrollingView :=
  ⟨capacity, 0, 0⟩

/-- State mutation performed at the start of `ScrollingView::render` on a
non-empty list (lines 27–32 of `scrolling.rs`): first re-clamp `skip`
(`items.len().saturating_sub(self.capacity)`), then re-clamp `index`
(`items.len() - self.skip - 1`; that subtraction provably never underflows
when `capacity > 0`, so `Nat` subtraction is faithful). -/
def ScrollingView.clamp (v : ScrollingView) (len : Nat) : ScrollingView :=
  let skip := if v.skip + v.capacity > len then len - v.capacity else v.skip
  let index := if skip + v.index + 1 > len then len - skip - 1 else v.index
  ⟨v.capacity, index, skip⟩

/-- State effect of `ScrollingView::render`: reset on the empty list,
otherwise clamp against the list length.  The mutation happens before any
indexing in the Rust code, so this is the state after a successful render. -/
def ScrollingView.renderState {α : Type} (v : ScrollingView) (items : List α) :
    ScrollingView :=
  if items.isEmpty then ⟨v.capacity, 0, 0⟩ else v.clamp items.length

/-- Full `ScrollingView::render`.  `none` models a Rust panic:
`&items[skip..]` requires `skip ≤ len`, `&skipped[0..index]` requires
`index ≤ skipped.len()`, `&skipped[index]` requires `index < skipped.len()`.
The `above` entries use `skipped.get(i)` (`flat_map`), which cannot panic. -/
def ScrollingView.render {α : Type} (v : ScrollingView) (items : List α) :
    Option (ScrollingView × Render α) :=
  if items.isEmpty then
    some (⟨v.capacity, 0, 0⟩, .empty)
  else
    let v' := v.clamp items.length
    if v'.skip ≤ items.length then
      let skipped := items.drop v'.skip
      if v'.index ≤ skipped.length then
        let below := skipped.take v'.index
        match skipped[v'.index]? with
        | some selected =>
          let above := (List.range' (v'.index + 1) (v'.capacity - (v'.index + 1))).filterMap
            (fun i => skipped[i]?)
          some (v', .nonEmpty above selected below)
        | none => none
      else none
    else none

/-- Movement `ScrollingView::up` (lines 47–53 of `scrolling.rs`). -/
def ScrollingView.up (v : ScrollingView) : ScrollingView :=
  if v.index + 1 < v.capacity then ⟨v.capacity, v.index + 1, v.skip⟩
  else ⟨v.capacity, v.index, v.skip + 1⟩

/-- Movement `ScrollingView::down` (lines 55–61 of `scrolling.rs`);
`saturating_sub` is `Nat` subtraction. -/
def ScrollingView.down (v : ScrollingView) : ScrollingView :=
  if v.index > 0 then ⟨v.capacity, v.index - 1, v.skip⟩
  else ⟨v.capacity, v.index, v.skip - 1⟩

/-- Fixed view state from `src/view/fixed.rs`. -/
structure FixedView where
  capacity : Nat
  index : Nat
deriving DecidableEq, Repr

/-- Constructor `FixedView::new`; the Rust code asserts `capacity > 0`. -/
def FixedView.new (capacity : Nat) : FixedView :=
  ⟨capacity, 0⟩

/-- Index clamp at the start of `FixedView::render` on a non-empty list
(lines 20–22 of `fixed.rs`). -/
def FixedView.clampIndex (v : FixedView) (len : Nat) : FixedView :=
  if v.index + 1 > len then ⟨v.capacity, len - 1⟩ else v

/-- State effect of `FixedView::render` (the mutation precedes the
potentially panicking slice). -/
def FixedView.renderState {α : Type} (v : FixedView) (items : List α) :
    FixedView :=
  if items.isEmpty then ⟨v.capacity, 0⟩ else v.clampIndex items.length

/-- Full `FixedView::render`.  `none` models a Rust panic.  The slice
`&items[self.index + 1..self.capacity]` (line 25 of `fixed.rs`) panics
unless `index + 1 ≤ capacity` and `capacity ≤ items.len()`; in particular it
panics whenever the list is non-empty but shorter than `capacity`. -/
def FixedView.render {α : Type} (v : FixedView) (items : List α) :
    Option (FixedView × Render α) :=
  if items.isEmpty then
    some (⟨v.capacity, 0⟩, .empty)
  else
    let v' := v.clampIndex items.length
    if v'.index ≤ items.length then
      let below := items.take v'.index
      match items[v'.index]? with
      | some selected =>
        if v'.index + 1 ≤ v'.capacity ∧ v'.capacity ≤ items.length then
          let above := (items.drop (v'.index + 1)).take (v'.capacity - (v'.index + 1))
          some (v', .nonEmpty above selected below)
        else none
      | none => none
    else none

/-- Movement `FixedView::up` (lines 34–38 of `fixed.rs`). -/
def FixedView.up (v : FixedView) : FixedView :=
  if v.index + 1 < v.capacity then ⟨v.capacity, v.index + 1⟩ else v

/-- Movement `FixedView::down` (lines 40–42 of `fixed.rs`);
`saturating_sub` is `Nat` subtraction. -/
def FixedView.down (v : FixedView) : FixedView :=
  ⟨v.capacity, v.index - 1⟩

/-- An abstract operation on a view: a cursor movement or a render against a
(possibly different) list.  Used to quantify over arbitrary interleavings of
`up()`/`down()` and `render(list)` calls. -/
inductive ViewOp (α : Type) where
  | up
  | down
  | render (items : List α)

/-- One step of the scrolling state machine. -/
def ScrollingView.step {α : Type} (v : ScrollingView) : ViewOp α → ScrollingView
  | .up => v.up
  | .down => v.down
  | .render items => v.renderState items

/-- Run of the scrolling state machine over a sequence of operations. -/
def ScrollingView.run {α : Type} (v : ScrollingView) : List (ViewOp α) → ScrollingView
  | [] => v
  | op :: ops => (v.step op).run ops

/-- One step of the fixed state machine. -/
def FixedView.step {α : Type} (v : FixedView) : ViewOp α → FixedView
  | .up => v.up
  | .down => v.down
  | .render items => v.renderState items

/-- Run of the fixed state machine over a sequence of operations. -/
def FixedView.run {α : Type} (v : FixedView) : List (ViewOp α) → FixedView
  | [] => v
  | op :: ops => (v.step op).run ops

/-- Candidate matches built in `FuzzyFinder::update_matches` (lines 179–184
of `lib.rs`): score every item with the external matcher
(`matcher.fuzzy_indices(&f.name, &self.search_term)`), keeping exactly the
items with a defined score, in input order.  The external matcher is an
opaque parameter `scorer`. -/
def candidate_matches {α : Type} (scorer : String → String → Option (Int × List Nat))
    (all_items : List (Item α)) (search_term : String) : List (ScoredItem α) :=
  all_items.filterMap (fun f =>
    (scorer f.name search_term).map (fun p => ⟨f, p.1, p.2⟩))

/-- Order used by the sort in `update_matches`
(`sort_by(|a, b| b.score.cmp(&a.score))`): `a` may come before `b` exactly
when `b.score ≤ a.score` (descending by score). -/
def scoreGE {α : Type} (a b : ScoredItem α) : Prop :=
  b.score ≤ a.score

instance {α : Type} : DecidableRel (@scoreGE α) :=
  fun a b => (inferInstance : Decidable (b.score ≤ a.score))

instance {α : Type} : IsTotal (ScoredItem α) scoreGE :=
  ⟨fun a b => le_total b.score a.score⟩

instance {α : Type} : IsTrans (ScoredItem α) scoreGE :=
  ⟨fun _ _ _ h1 h2 => le_trans h2 h1⟩

/-- `FuzzyFinder::update_matches` (lines 178–194 of `lib.rs`): rebuild the
candidate matches from the full item set, then sort them by descending
score.  Rust's `sort_by` is a stable sort; under the total preorder of the
comparator the stable result is unique, and `List.insertionSort scoreGE`
computes exactly it (sortedness and the stable tie-break are proved in the
C8 theorem). -/
def update_matches {α : Type} (scorer : String → String → Option (Int × List Nat))
    (all_items : List (Item α)) (search_term : String) : List (ScoredItem α) :=
  List.insertionSort scoreGE (candidate_matches scorer all_items search_term)

/-- Confirm behaviour from `FuzzyFinder::find` (lines 242–258 of `lib.rs`):
on the enter key, if the matches are non-empty the session returns
`view.render(&matches).selected().map(|f| f.item.data)`; otherwise `None`.
The outer `Option` models a panic inside `render` (which, for the scrolling
view, provably cannot happen); the inner option is the returned value. -/
def confirm {α : Type} (v : ScrollingView) (ms : List (ScoredItem α)) :
    Option (Option α) :=
  if !ms.isEmpty then
    (v.render ms).map (fun p => p.2.selected.map (fun f => f.item.data))
  else some none

/-- Byte-slice prefix `&s[..k]` of a Rust string whose character sequence is
`s`: keep the first `k` UTF-8 bytes.  `none` models the Rust panic raised
when `k` is not a character boundary or exceeds the byte length. -/
def utf8Take : Nat → List Char → Option (List Char)
  | 0, _ => some []
  | _ + 1, [] => none
  | k + 1, c :: cs =>
    if c.utf8Size ≤ k + 1 then (utf8Take (k + 1 - c.utf8Size) cs).map (fun t => c :: t)
    else none

/-- `FuzzyFinder::backspace` (lines 96–103 of `lib.rs`): if the query is
non-empty, replace it by the byte slice
`&self.search_term[..self.search_term.chars().count() - 1]` — a byte index
computed from a character count.  The query is modelled by its character
sequence; `none` models the char-boundary panic of the byte slice. -/
def backspace (search_term : List Char) : Option (List Char) :=
  if search_term.length > 0 then utf8Take (search_term.length - 1) search_term
  else some search_term

/-- C6: rendering an empty list resets `index` (and, for the scrolling
strategy, `skip`) to 0 and returns the empty variant of the rendered window,
for both strategies and every prior view state. -/
theorem render_empty_list_resets {α : Type} (v : ScrollingView) (f : FixedView) :
    v.render ([] : List α) = some (⟨v.capacity, 0, 0⟩, Render.empty) ∧
    f.render ([] : List α) = some (⟨f.capacity, 0⟩, Render.empty) := by
  constructor <;> rfl

/-- C3: scrolling movement mechanics.  `up()` increments `index` while
`index + 1 < capacity`; once `index` has reached `capacity - 1` each further
`up()` increments `skip`, holding `index` fixed.  `down()` decrements
`index` while `index > 0`; at `index = 0` it decrements `skip`, floored at 0
(never underflowing). -/
theorem scrolling_movement_mechanics (v : ScrollingView) :
    (v.index + 1 < v.capacity → v.up = ⟨v.capacity, v.index + 1, v.skip⟩) ∧
    (0 < v.capacity → v.index = v.capacity - 1 →
      v.up = ⟨v.capacity, v.index, v.skip + 1⟩) ∧
    (0 < v.index → v.down = ⟨v.capacity, v.index - 1, v.skip⟩) ∧
    (v.index = 0 → 0 < v.skip → v.down = ⟨v.capacity, v.index, v.skip - 1⟩) ∧
    (v.index = 0 → v.skip = 0 → v.down = v) := by
  refine ⟨fun h => ?_, fun hc h => ?_, fun h => ?_, fun h h' => ?_, fun h h' => ?_⟩
  · simp [ScrollingView.up, h]
  · have : ¬ (v.index + 1 < v.capacity) := by omega
    simp [ScrollingView.up, this]
  · simp [ScrollingView.down, h]
  · simp [ScrollingView.down, h]
  · obtain ⟨c, i, s⟩ := v
    simp_all [ScrollingView.down]

/-- Witness for C3 at concrete states (capacity 2). -/
theorem scrolling_movement_mechanics_witness :
    ((0 : Nat) + 1 < 2 ∧ ScrollingView.up ⟨2, 0, 5⟩ = ⟨2, 1, 5⟩) ∧
    ((1 : Nat) = 2 - 1 ∧ ScrollingView.up ⟨2, 1, 5⟩ = ⟨2, 1, 6⟩) ∧
    ((0 : Nat) < 1 ∧ ScrollingView.down ⟨2, 1, 5⟩ = ⟨2, 0, 5⟩) ∧
    ((0 : Nat) < 5 ∧ ScrollingView.down ⟨2, 0, 5⟩ = ⟨2, 0, 4⟩) ∧
    ScrollingView.down ⟨2, 0, 0⟩ = ⟨2, 0, 0⟩ :=
  ⟨⟨by decide, (scrolling_movement_mechanics ⟨2, 0, 5⟩).1 (by decide)⟩,
   ⟨by decide, (scrolling_movement_mechanics ⟨2, 1, 5⟩).2.1 (by decide) (by decide)⟩,
   ⟨by decide, (scrolling_movement_mechanics ⟨2, 1, 5⟩).2.2.1 (by decide)⟩,
   ⟨by decide, (scrolling_movement_mechanics ⟨2, 0, 5⟩).2.2.2.1 (by decide) (by decide)⟩,
   (scrolling_movement_mechanics ⟨2, 0, 0⟩).2.2.2.2 (by decide) (by decide)⟩

/-- Arithmetic specification of the scrolling clamp: the capacity is
untouched, `skip` ends at most `len - capacity`, the selected position
`skip + index` ends strictly inside the list, the index never grows, and a
list shorter than the capacity forces `skip = 0`. -/
theorem ScrollingView.clamp_spec (v : ScrollingView) (len : Nat)
    (hcap : 0 < v.capacity) (hlen : 0 < len) :
    (v.clamp len).capacity = v.capacity ∧
    (v.clamp len).skip ≤ len - v.capacity ∧
    (v.clamp len).skip + (v.clamp len).index + 1 ≤ len ∧
    (v.clamp len).index ≤ v.index ∧
    (len < v.capacity → (v.clamp len).skip = 0) := by
  simp only [ScrollingView.clamp]
  split_ifs <;> refine ⟨by simp, ?_, ?_, ?_, ?_⟩ <;> omega

/-- Every operation of the scrolling state machine preserves the capacity
and the structural invariant `index < capacity`. -/
theorem ScrollingView.step_invariant {α : Type} (v : ScrollingView) (op : ViewOp α)
    (hcap : 0 < v.capacity) (hidx : v.index < v.capacity) :
    (v.step op).capacity = v.capacity ∧ (v.step op).index < v.capacity := by
  cases op with
  | up =>
    simp only [ScrollingView.step, ScrollingView.up]
    split_ifs <;> refine ⟨by simp, ?_⟩ <;> simp only [] <;> omega
  | down =>
    simp only [ScrollingView.step, ScrollingView.down]
    split_ifs <;> refine ⟨by simp, ?_⟩ <;> simp only [] <;> omega
  | render items =>
    simp only [ScrollingView.step, ScrollingView.renderState]
    split_ifs with h
    · exact ⟨by simp, hcap⟩
    · have hne : items ≠ [] := by simpa [List.isEmpty_iff] using h
      have hlen : 0 < items.length := List.length_pos.mpr hne
      obtain ⟨h1, _, _, h4, _⟩ := v.clamp_spec items.length hcap hlen
      exact ⟨h1, by omega⟩

/-- Any run of the scrolling state machine preserves the capacity and the
invariant `index < capacity`. -/
theorem ScrollingView.run_invariant {α : Type} (ops : List (ViewOp α)) :
    ∀ v : ScrollingView, 0 < v.capacity → v.index < v.capacity →
      (v.run ops).capacity = v.capacity ∧ (v.run ops).index < v.capacity := by
  induction ops with
  | nil => exact fun v _ h => ⟨rfl, h⟩
  | cons op ops ih =>
    intro v hcap hidx
    obtain ⟨h1, h2⟩ := v.step_invariant op hcap hidx
    obtain ⟨g1, g2⟩ := ih (v.step op) (h1 ▸ hcap) (by omega)
    exact ⟨by rw [ScrollingView.run, g1, h1], by rw [ScrollingView.run]; omega⟩

/-- Characterization of a successful `ScrollingView::render` on a non-empty
list: the resulting state is the clamped state, the selected entry is the
list entry at position `skip + index` of the clamped state, and the window
components are the slices the code builds. -/
theorem ScrollingView.render_spec {α : Type} (v : ScrollingView) (items : List α)
    (hcap : 0 < v.capacity) (hne : items ≠ []) :
    ∃ sel,
      items[(v.clamp items.length).skip + (v.clamp items.length).index]? = some sel ∧
      v.render items = some (v.clamp items.length,
        Render.nonEmpty
          ((List.range' ((v.clamp items.length).index + 1)
              (v.capacity - ((v.clamp items.length).index + 1))).filterMap
            (fun i => (items.drop (v.clamp items.length).skip)[i]?))
          sel
          ((items.drop (v.clamp items.length).skip).take (v.clamp items.length).index)) := by
  have hE : items.isEmpty = false := by simp [List.isEmpty_iff, hne]
  have hlen : 0 < items.length := List.length_pos.mpr hne
  obtain ⟨h1, h2, h3, h4, h5⟩ := v.clamp_spec items.length hcap hlen
  set c := v.clamp items.length with hc
  have hskip : c.skip ≤ items.length := by omega
  have hdroplen : (items.drop c.skip).length = items.length - c.skip :=
    List.length_drop c.skip items
  have hidx : c.index ≤ (items.drop c.skip).length := by omega
  have hget : (items.drop c.skip)[c.index]? = items[c.skip + c.index]? :=
    List.getElem?_drop items c.skip c.index
  have hlt : c.skip + c.index < items.length := by omega
  have hsome : items[c.skip + c.index]? = some (items.get ⟨c.skip + c.index, hlt⟩) :=
    List.getElem?_eq_getElem hlt
  refine ⟨items.get ⟨c.skip + c.index, hlt⟩, hsome, ?_⟩
  rw [ScrollingView.render]
  rw [if_neg (by simp [hE])]
  simp only [← hc]
  rw [if_pos hskip, if_pos hidx, hget, hsome]
  rw [h1]

/-- Length of the `above` component of the scrolling window: the number of
positions `i` in `[s, s+n)` at which `l.get i` is defined. -/
theorem length_filterMap_range'_getElem {α : Type} (l : List α) :
    ∀ (n s : Nat), ((List.range' s n).filterMap (fun i => l[i]?)).length
      = min (s + n) l.length - s := by
  intro n
  induction n with
  | zero =>
    intro s
    have h0 : List.range' s 0 = [] := rfl
    simp only [h0, List.filterMap_nil, List.length_nil]
    omega
  | succ k ih =>
    intro s
    rw [List.range'_succ s k 1, List.filterMap_cons]
    by_cases hs : s < l.length
    · rw [List.getElem?_eq_getElem hs]
      have := ih (s + 1)
      simp only [List.length_cons, this]
      omega
    · rw [List.getElem?_eq_none (by omega)]
      have := ih (s + 1)
      simp only [this]
      omega

/-- Every operation of the fixed state machine preserves the capacity and
the structural invariant `index < capacity`. -/
theorem FixedView.step_invariant_fixed {α : Type} (v : FixedView) (op : ViewOp α)
    (hcap : 0 < v.capacity) (hidx : v.index < v.capacity) :
    (v.step op).capacity = v.capacity ∧ (v.step op).index < v.capacity := by
  cases op with
  | up =>
    simp only [FixedView.step, FixedView.up]
    split_ifs <;> refine ⟨by simp, ?_⟩ <;> (try dsimp only) <;> omega
  | down => exact ⟨by simp [FixedView.step, FixedView.down], by
      simp only [FixedView.step, FixedView.down]; omega⟩
  | render items =>
    simp only [FixedView.step, FixedView.renderState, FixedView.clampIndex]
    split_ifs <;> refine ⟨by simp, ?_⟩ <;> (try dsimp only) <;> omega

/-- Any run of the fixed state machine preserves the capacity and the
invariant `index < capacity`. -/
theorem FixedView.run_invariant_fixed {α : Type} (ops : List (ViewOp α)) :
    ∀ v : FixedView, 0 < v.capacity → v.index < v.capacity →
      (v.run ops).capacity = v.capacity ∧ (v.run ops).index < v.capacity := by
  induction ops with
  | nil => exact fun v _ h => ⟨rfl, h⟩
  | cons op ops ih =>
    intro v hcap hidx
    obtain ⟨h1, h2⟩ := v.step_invariant_fixed op hcap hidx
    obtain ⟨g1, g2⟩ := ih (v.step op) (h1 ▸ hcap) (by omega)
    exact ⟨by rw [FixedView.run, g1, h1], by rw [FixedView.run]; omega⟩

/-- A successful `FixedView::render` leaves the view in the clamped state
(the state mutation precedes the potentially panicking slice). -/
theorem FixedView.renderState_of_render {α : Type} {v : FixedView} {items : List α}
    {p : FixedView × Render α} (h : v.render items = some p) :
    p.1 = v.renderState items := by
  simp only [FixedView.render] at h
  rw [FixedView.renderState]
  split at h
  · rw [if_pos (by assumption)]
    injection h with h2
    rw [← h2]
  · rw [if_neg (by assumption)]
    split at h
    · split at h
      · split at h
        · injection h with h2
          rw [← h2]
        · exact absurd h (by simp)
      · exact absurd h (by simp)
    · exact absurd h (by simp)

/-- Post-render bounds for the scrolling view, from any state satisfying
the structural invariant `index < capacity`: rendering a non-empty list
succeeds and establishes `skip + index < list.length` and
`index < capacity`. -/
theorem ScrollingView.post_render_bounds {α : Type} (v : ScrollingView) (items : List α)
    (hcap : 0 < v.capacity) (hidx : v.index < v.capacity) (hne : items ≠ []) :
    (∃ w, v.render items = some (v.renderState items, w)) ∧
    (v.renderState items).skip + (v.renderState items).index < items.length ∧
    (v.renderState items).index < v.capacity := by
  have hlen : 0 < items.length := List.length_pos.mpr hne
  have hE : items.isEmpty = false := by simp [List.isEmpty_iff, hne]
  have hrs : v.renderState items = v.clamp items.length := by
    rw [ScrollingView.renderState, if_neg (by simp [hE])]
  obtain ⟨h1, h2, h3, h4, h5⟩ := v.clamp_spec items.length hcap hlen
  obtain ⟨sel, hsel, hrend⟩ := ScrollingView.render_spec v items hcap hne
  exact ⟨⟨_, by rw [hrs]; exact hrend⟩, by rw [hrs]; omega, by rw [hrs]; omega⟩

/-- Post-render bound for the fixed view, from any state satisfying the
structural invariant `index < capacity`: any render call that returns
leaves `index < min capacity list.length`. -/
theorem FixedView.post_render_bounds_fixed {α : Type} (f : FixedView) (fitems : List α)
    (hidx : f.index < f.capacity) (fne : fitems ≠ []) :
    ∀ f' w, f.render fitems = some (f', w) → f'.index < min f.capacity fitems.length := by
  intro f' w hw
  have hfE : fitems.isEmpty = false := by simp [List.isEmpty_iff, fne]
  have hflen : 0 < fitems.length := List.length_pos.mpr fne
  have h1 := FixedView.renderState_of_render hw
  have h2 : f' = f.clampIndex fitems.length := by
    simpa [FixedView.renderState, hfE] using h1
  rw [h2, FixedView.clampIndex]
  split_ifs <;> (try dsimp only) <;> omega

/-- C1: index invariant of the windowing engines.  For every sequence of
`up()`/`down()` calls interleaved with renders of lists of arbitrary
(changing) lengths, immediately after `render(list)` with `list` non-empty:
the scrolling view's render succeeds and leaves `0 ≤ skip`,
`skip + index < list.length` and `index < capacity`; the fixed view, after
any render call that returns, satisfies `index < min capacity list.length`. -/
theorem index_invariant {α β : Type} (cap : Nat) (hcap : 0 < cap)
    (ops : List (ViewOp α)) (items : List α) (hne : items ≠ [])
    (fops : List (ViewOp β)) (fitems : List β) (fne : fitems ≠ []) :
    ((∃ w, ((ScrollingView.new cap).run ops).render items =
        some (((ScrollingView.new cap).run ops).renderState items, w)) ∧
      0 ≤ (((ScrollingView.new cap).run ops).renderState items).skip ∧
      (((ScrollingView.new cap).run ops).renderState items).skip
          + (((ScrollingView.new cap).run ops).renderState items).index < items.length ∧
      (((ScrollingView.new cap).run ops).renderState items).index < cap) ∧
    (∀ f' w, ((FixedView.new cap).run fops).render fitems = some (f', w) →
      f'.index < min cap fitems.length) := by
  constructor
  · obtain ⟨hrc, hri⟩ := ScrollingView.run_invariant ops (ScrollingView.new cap) hcap hcap
    have hvc : ((ScrollingView.new cap).run ops).capacity = cap := hrc
    obtain ⟨g1, g2, g3⟩ := ScrollingView.post_render_bounds ((ScrollingView.new cap).run ops)
      items (by omega) (by omega) hne
    exact ⟨g1, Nat.zero_le _, g2, by omega⟩
  · obtain ⟨hfc, hfi⟩ := FixedView.run_invariant_fixed fops (FixedView.new cap) hcap hcap
    have hvc : ((FixedView.new cap).run fops).capacity = cap := hfc
    intro f' w hw
    have := FixedView.post_render_bounds_fixed ((FixedView.new cap).run fops) fitems (by omega)
      fne f' w hw
    omega

/-- Witness for C1 with capacity 1, empty movement sequences, and the
singleton list `[0]`. -/
theorem index_invariant_witness :
    (0 : Nat) < 1 ∧ ([0] : List Nat) ≠ [] ∧
    (((∃ w, ((ScrollingView.new 1).run ([] : List (ViewOp Nat))).render [0] =
        some (((ScrollingView.new 1).run ([] : List (ViewOp Nat))).renderState [0], w)) ∧
      0 ≤ (((ScrollingView.new 1).run ([] : List (ViewOp Nat))).renderState [0]).skip ∧
      (((ScrollingView.new 1).run ([] : List (ViewOp Nat))).renderState [0]).skip
          + (((ScrollingView.new 1).run ([] : List (ViewOp Nat))).renderState [0]).index
          < ([0] : List Nat).length ∧
      (((ScrollingView.new 1).run ([] : List (ViewOp Nat))).renderState [0]).index < 1) ∧
    (∀ f' w, ((FixedView.new 1).run ([] : List (ViewOp Nat))).render [(0 : Nat)] = some (f', w) →
      f'.index < min 1 ([0] : List Nat).length)) :=
  ⟨by decide, by decide,
    index_invariant 1 (by decide) [] [0] (by decide) [] [0] (by decide)⟩

/-- Arithmetic specification of the fixed index clamp. -/
theorem FixedView.clampIndex_spec (v : FixedView) (len : Nat) (hlen : 0 < len) :
    (v.clampIndex len).capacity = v.capacity ∧
    (v.clampIndex len).index ≤ v.index ∧
    (v.clampIndex len).index < len := by
  rw [FixedView.clampIndex]
  split_ifs <;> refine ⟨rfl, ?_, ?_⟩ <;> (try dsimp only) <;> omega

/-- A successful `FixedView::render` on a non-empty list requires the list
to be at least as long as the capacity: otherwise the slice
`&items[index + 1..capacity]` panics. -/
theorem FixedView.render_capacity_le {α : Type} {v : FixedView} {items : List α}
    {p : FixedView × Render α} (hne : items ≠ []) (h : v.render items = some p) :
    v.capacity ≤ items.length := by
  have hE : items.isEmpty = false := by simp [List.isEmpty_iff, hne]
  have hlen : 0 < items.length := List.length_pos.mpr hne
  have hcc : (v.clampIndex items.length).capacity = v.capacity :=
    (v.clampIndex_spec items.length hlen).1
  simp only [FixedView.render] at h
  rw [if_neg (by simp [hE])] at h
  split at h
  · split at h
    · split at h
      · rename_i hcond
        omega
      · exact absurd h (by simp)
    · exact absurd h (by simp)
  · exact absurd h (by simp)

/-- Characterization of a successful `FixedView::render` on a non-empty
list at least as long as the capacity, from a state with
`index < capacity`. -/
theorem FixedView.render_spec_fixed {α : Type} (v : FixedView) (items : List α)
    (hne : items ≠ []) (hcl : v.capacity ≤ items.length)
    (hidx : v.index < v.capacity) :
    ∃ sel, items[(v.clampIndex items.length).index]? = some sel ∧
      v.render items = some (v.clampIndex items.length,
        Render.nonEmpty
          ((items.drop ((v.clampIndex items.length).index + 1)).take
            (v.capacity - ((v.clampIndex items.length).index + 1)))
          sel
          (items.take (v.clampIndex items.length).index)) := by
  have hE : items.isEmpty = false := by simp [List.isEmpty_iff, hne]
  have hlen : 0 < items.length := List.length_pos.mpr hne
  obtain ⟨hc1, hc2, hc3⟩ := v.clampIndex_spec items.length hlen
  set c := v.clampIndex items.length with hc
  have hsome : items[c.index]? = some (items.get ⟨c.index, hc3⟩) :=
    List.getElem?_eq_getElem hc3
  refine ⟨items.get ⟨c.index, hc3⟩, hsome, ?_⟩
  rw [FixedView.render]
  rw [if_neg (by simp [hE])]
  simp only [← hc]
  rw [if_pos (by omega : c.index ≤ items.length)]
  simp only [hsome]
  rw [if_pos (show c.index + 1 ≤ c.capacity ∧ c.capacity ≤ items.length from
    ⟨by omega, by omega⟩)]
  rw [hc1]

/-- C7: window size bound.  Every rendered window satisfies
`above.len + 1 + below.len ≤ capacity` (with an empty window counting 0
entries), and when the rendered list is non-empty the number of rendered
entries equals `min capacity list.length`.  The hypotheses
`index < capacity` are the structural invariant maintained by every
operation (`ScrollingView.run_invariant`, `FixedView.run_invariant_fixed`). -/
theorem window_size_bound {α β : Type} (v : ScrollingView) (items : List α)
    (hcap : 0 < v.capacity) (hidx : v.index < v.capacity)
    (f : FixedView) (fitems : List β) (hfidx : f.index < f.capacity) :
    (∀ st w, v.render items = some (st, w) →
      w.len ≤ v.capacity ∧ (items ≠ [] → w.len = min v.capacity items.length)) ∧
    (∀ st w, f.render fitems = some (st, w) →
      w.len ≤ f.capacity ∧ (fitems ≠ [] → w.len = min f.capacity fitems.length)) := by
  constructor
  · intro st w hw
    by_cases hne : items = []
    · subst hne
      rw [ScrollingView.render] at hw
      rw [if_pos (by simp)] at hw
      injection hw with hw2
      obtain ⟨rfl, rfl⟩ := Prod.mk.injEq .. ▸ (by exact congrArg id hw2 : _ = (st, w))
      exact ⟨by simp [Render.len], fun h => absurd rfl h⟩
    · have hlen : 0 < items.length := List.length_pos.mpr hne
      obtain ⟨h1, h2, h3, h4, h5⟩ := v.clamp_spec items.length hcap hlen
      obtain ⟨sel, hsel, hrend⟩ := ScrollingView.render_spec v items hcap hne
      rw [hrend] at hw
      injection hw with hw2
      obtain ⟨hst, hwin⟩ := Prod.mk.injEq .. ▸ (by exact congrArg id hw2 : _ = (st, w))
      set c := v.clamp items.length with hc
      have habove : ((List.range' (c.index + 1) (v.capacity - (c.index + 1))).filterMap
          (fun i => (items.drop c.skip)[i]?)).length
          = min ((c.index + 1) + (v.capacity - (c.index + 1))) (items.length - c.skip)
            - (c.index + 1) := by
        rw [length_filterMap_range'_getElem (items.drop c.skip) (v.capacity - (c.index + 1))
          (c.index + 1), List.length_drop]
      have hbelow : ((items.drop c.skip).take c.index).length = c.index := by
        rw [List.length_take, List.length_drop]
        omega
      have hcidx : c.index < v.capacity := by omega
      rw [← hwin, Render.len, habove, hbelow]
      constructor
      · omega
      · intro _
        omega
  · intro st w hw
    by_cases hne : fitems = []
    · subst hne
      rw [FixedView.render] at hw
      rw [if_pos (by simp)] at hw
      injection hw with hw2
      obtain ⟨rfl, rfl⟩ := Prod.mk.injEq .. ▸ (by exact congrArg id hw2 : _ = (st, w))
      exact ⟨by simp [Render.len], fun h => absurd rfl h⟩
    · have hlen : 0 < fitems.length := List.length_pos.mpr hne
      have hcl : f.capacity ≤ fitems.length := FixedView.render_capacity_le hne hw
      obtain ⟨hc1, hc2, hc3⟩ := f.clampIndex_spec fitems.length hlen
      obtain ⟨sel, hsel, hrend⟩ := FixedView.render_spec_fixed f fitems hne hcl hfidx
      rw [hrend] at hw
      injection hw with hw2
      obtain ⟨hst, hwin⟩ := Prod.mk.injEq .. ▸ (by exact congrArg id hw2 : _ = (st, w))
      set c := f.clampIndex fitems.length with hc
      have habove : ((fitems.drop (c.index + 1)).take (f.capacity - (c.index + 1))).length
          = f.capacity - (c.index + 1) := by
        rw [List.length_take, List.length_drop]
        omega
      have hbelow : (fitems.take c.index).length = c.index := by
        rw [List.length_take]
        omega
      rw [← hwin, Render.len, habove, hbelow]
      constructor
      · omega
      · intro _
        omega

/-- Witness for C7 with a scrolling view of capacity 2 over a 3-element
list and a fixed view of capacity 2 over a 2-element list. -/
theorem window_size_bound_witness :
    (0 : Nat) < 2 ∧ (0 : Nat) < 2 ∧ (0 : Nat) < 2 ∧
    (∀ st w, (⟨2, 0, 0⟩ : ScrollingView).render [(0 : Nat), 1, 2] = some (st, w) →
      w.len ≤ 2 ∧ ([(0 : Nat), 1, 2] ≠ [] → w.len = min 2 ([(0 : Nat), 1, 2]).length)) ∧
    (∀ st w, (⟨2, 0⟩ : FixedView).render [(5 : Nat), 6] = some (st, w) →
      w.len ≤ 2 ∧ ([(5 : Nat), 6] ≠ [] → w.len = min 2 ([(5 : Nat), 6]).length)) :=
  ⟨by decide, by decide, by decide,
    (window_size_bound ⟨2, 0, 0⟩ [0, 1, 2] (by decide) (by decide) ⟨2, 0⟩ [5, 6]
      (by decide)).1,
    (window_size_bound ⟨2, 0, 0⟩ [0, 1, 2] (by decide) (by decide) ⟨2, 0⟩ [5, 6]
      (by decide)).2⟩

/-- C4 counterexample: the claim says `up()` moves the selection one entry
closer to the start of the ranked list and is a no-op when the selection is
already at the first entry.  On a fresh scrolling view the selection is the
first list entry (10); after one `up()` the next render selects the second
entry (20), i.e. `up()` moved the selection away from the start and was not
a no-op at the first entry. -/
theorem up_moves_selection_toward_end :
    ((ScrollingView.new 2).render [(10 : Nat), 20, 30]).map (fun p => p.2.selected)
      = some (some 10) ∧
    ((((ScrollingView.new 2).renderState [(10 : Nat), 20, 30]).up.render
        [(10 : Nat), 20, 30]).map (fun p => p.2.selected)) = some (some 20) := by
  constructor <;> rfl

/-- C4 (amended): for both strategies, from any post-render state, `up()`
moves the selection one entry closer to the END of the ranked list (a no-op
once the selection is at the last overall entry for the scrolling strategy,
or the last visible entry `capacity - 1` for the fixed strategy), and
`down()` moves it one entry closer to the START (a no-op at the first
entry).  The selected position is `skip + index` (scrolling) or `index`
(fixed), re-read after the next render of the same list. -/
theorem movement_direction_amended {α β : Type} (v : ScrollingView) (items : List α)
    (hcap : 0 < v.capacity) (hpos : v.skip + v.index < items.length)
    (hidx : v.index < v.capacity) (hskip : v.skip ≤ items.length - v.capacity)
    (f : FixedView) (fitems : List β) (hfcap : 0 < f.capacity)
    (hfcl : f.capacity ≤ fitems.length) (hfidx : f.index < f.capacity) :
    (v.up.renderState items).skip + (v.up.renderState items).index
        = min (v.skip + v.index + 1) (items.length - 1) ∧
    (v.down.renderState items).skip + (v.down.renderState items).index
        = v.skip + v.index - 1 ∧
    (f.up.renderState fitems).index = min (f.index + 1) (f.capacity - 1) ∧
    (f.down.renderState fitems).index = f.index - 1 := by
  have hlen : 0 < items.length := by omega
  have hne : items ≠ [] := by
    intro h
    rw [h] at hlen
    simp at hlen
  have hE : items.isEmpty = false := by simp [List.isEmpty_iff, hne]
  have hflen : 0 < fitems.length := by omega
  have hfne : fitems ≠ [] := by
    intro h
    rw [h] at hflen
    simp at hflen
  have hfE : fitems.isEmpty = false := by simp [List.isEmpty_iff, hfne]
  refine ⟨?_, ?_, ?_, ?_⟩
  · rw [show v.up.renderState items = v.up.clamp items.length from by
      rw [ScrollingView.renderState, if_neg (by simp [hE])]]
    rcases Nat.lt_or_ge (v.index + 1) v.capacity with hu | hu
    · rw [show v.up = ⟨v.capacity, v.index + 1, v.skip⟩ from by
        rw [ScrollingView.up, if_pos hu]]
      simp only [ScrollingView.clamp]
      split_ifs <;> (try dsimp only) <;> omega
    · rw [show v.up = ⟨v.capacity, v.index, v.skip + 1⟩ from by
        rw [ScrollingView.up, if_neg (by omega)]]
      simp only [ScrollingView.clamp]
      split_ifs <;> (try dsimp only) <;> omega
  · rw [show v.down.renderState items = v.down.clamp items.length from by
      rw [ScrollingView.renderState, if_neg (by simp [hE])]]
    rcases Nat.eq_zero_or_pos v.index with hd | hd
    · rw [show v.down = ⟨v.capacity, v.index, v.skip - 1⟩ from by
        rw [ScrollingView.down, if_neg (by omega)]]
      simp only [ScrollingView.clamp]
      split_ifs <;> (try dsimp only) <;> omega
    · rw [show v.down = ⟨v.capacity, v.index - 1, v.skip⟩ from by
        rw [ScrollingView.down, if_pos hd]]
      simp only [ScrollingView.clamp]
      split_ifs <;> (try dsimp only) <;> omega
  · rw [show f.up.renderState fitems = f.up.clampIndex fitems.length from by
      rw [FixedView.renderState, if_neg (by simp [hfE])]]
    rcases Nat.lt_or_ge (f.index + 1) f.capacity with hu | hu
    · rw [show f.up = ⟨f.capacity, f.index + 1⟩ from by rw [FixedView.up, if_pos hu]]
      simp only [FixedView.clampIndex]
      split_ifs <;> (try dsimp only) <;> omega
    · rw [show f.up = f from by rw [FixedView.up, if_neg (by omega)]]
      simp only [FixedView.clampIndex]
      split_ifs <;> (try dsimp only) <;> omega
  · rw [show f.down.renderState fitems = f.down.clampIndex fitems.length from by
      rw [FixedView.renderState, if_neg (by simp [hfE])]]
    rw [show f.down = ⟨f.capacity, f.index - 1⟩ from rfl]
    simp only [FixedView.clampIndex]
    split_ifs <;> (try dsimp only) <;> omega

/-- Witness for the amended C4 at concrete post-render states. -/
theorem movement_direction_amended_witness :
    ((0 : Nat) < 2 ∧ 0 + 1 < ([(10 : Nat), 20, 30]).length ∧ (1 : Nat) < 2 ∧
      (0 : Nat) ≤ ([(10 : Nat), 20, 30]).length - 2 ∧
      (0 : Nat) < 2 ∧ 2 ≤ ([(5 : Nat), 6]).length ∧ (0 : Nat) < 2) ∧
    (((⟨2, 1, 0⟩ : ScrollingView).up.renderState [(10 : Nat), 20, 30]).skip
        + ((⟨2, 1, 0⟩ : ScrollingView).up.renderState [(10 : Nat), 20, 30]).index
        = min (0 + 1 + 1) (([(10 : Nat), 20, 30]).length - 1) ∧
      ((⟨2, 1, 0⟩ : ScrollingView).down.renderState [(10 : Nat), 20, 30]).skip
        + ((⟨2, 1, 0⟩ : ScrollingView).down.renderState [(10 : Nat), 20, 30]).index
        = 0 + 1 - 1 ∧
      ((⟨2, 0⟩ : FixedView).up.renderState [(5 : Nat), 6]).index = min (0 + 1) (2 - 1) ∧
      ((⟨2, 0⟩ : FixedView).down.renderState [(5 : Nat), 6]).index = 0 - 1) :=
  ⟨⟨by decide, by decide, by decide, by decide, by decide, by decide, by decide⟩,
    movement_direction_amended ⟨2, 1, 0⟩ [10, 20, 30] (by decide) (by decide) (by decide)
      (by decide) ⟨2, 0⟩ [5, 6] (by decide) (by decide) (by decide)⟩

/-- Repeated `down()` on a fresh scrolling view never underflows: the state
stays exactly the fresh state. -/
theorem ScrollingView.run_down_new (cap : Nat) {α : Type} (n : Nat) :
    (ScrollingView.new cap).run (List.replicate n (ViewOp.down : ViewOp α))
      = ScrollingView.new cap := by
  induction n with
  | zero => rfl
  | succ k ih =>
    have hstep : (ScrollingView.new cap).step (ViewOp.down : ViewOp α)
        = ScrollingView.new cap := by
      simp [ScrollingView.step, ScrollingView.down, ScrollingView.new]
    rw [List.replicate_succ, ScrollingView.run, hstep, ih]

/-- Repeated `down()` on a fresh fixed view never underflows: the state
stays exactly the fresh state. -/
theorem FixedView.run_down_new_fixed (cap : Nat) {α : Type} (n : Nat) :
    (FixedView.new cap).run (List.replicate n (ViewOp.down : ViewOp α))
      = FixedView.new cap := by
  induction n with
  | zero => rfl
  | succ k ih =>
    have hstep : (FixedView.new cap).step (ViewOp.down : ViewOp α) = FixedView.new cap := by
      simp [FixedView.step, FixedView.down, FixedView.new]
    rw [List.replicate_succ, FixedView.run, hstep, ih]

/-- C5: saturation.  Calling `up()` (or `down()`) any number of times `n`,
in particular more times than the list is long, never panics, never wraps,
and never produces an out-of-range state: after `n` ups the scrolling
render still succeeds with in-range `skip`/`index`, after `n` downs the
state is exactly the fresh state (no underflow), and the fixed view's index
stays below the capacity. -/
theorem saturation {α β : Type} (cap n : Nat) (hcap : 0 < cap)
    (items : List α) (hne : items ≠ []) :
    (let v := (ScrollingView.new cap).run (List.replicate n (ViewOp.up : ViewOp α))
     (∃ w, v.render items = some (v.renderState items, w)) ∧
      (v.renderState items).skip + (v.renderState items).index < items.length ∧
      (v.renderState items).index < cap) ∧
    ((ScrollingView.new cap).run (List.replicate n (ViewOp.down : ViewOp α))
        = ScrollingView.new cap) ∧
    ((FixedView.new cap).run (List.replicate n (ViewOp.up : ViewOp β))).index < cap ∧
    ((FixedView.new cap).run (List.replicate n (ViewOp.down : ViewOp β))
        = FixedView.new cap) := by
  refine ⟨?_, ScrollingView.run_down_new cap n, ?_, FixedView.run_down_new_fixed cap n⟩
  · have hnc : (ScrollingView.new cap).capacity = cap := rfl
    obtain ⟨hrc, hri⟩ := ScrollingView.run_invariant (List.replicate n ViewOp.up)
      (ScrollingView.new cap) hcap hcap
    obtain ⟨g1, g2, g3⟩ := ScrollingView.post_render_bounds
      ((ScrollingView.new cap).run (List.replicate n ViewOp.up)) items (by omega) (by omega) hne
    exact ⟨g1, g2, by omega⟩
  · have hnc : (FixedView.new cap).capacity = cap := rfl
    obtain ⟨hfc, hfi⟩ := FixedView.run_invariant_fixed (List.replicate n ViewOp.up)
      (FixedView.new cap) hcap hcap
    omega

/-- Witness for C5 with capacity 2, five movement repetitions, and a
2-element list. -/
theorem saturation_witness :
    (0 : Nat) < 2 ∧ ([(0 : Nat), 1] : List Nat) ≠ [] ∧
    ((let v := (ScrollingView.new 2).run (List.replicate 5 (ViewOp.up : ViewOp Nat))
     (∃ w, v.render [(0 : Nat), 1] = some (v.renderState [(0 : Nat), 1], w)) ∧
      (v.renderState [(0 : Nat), 1]).skip + (v.renderState [(0 : Nat), 1]).index
        < ([(0 : Nat), 1]).length ∧
      (v.renderState [(0 : Nat), 1]).index < 2) ∧
    ((ScrollingView.new 2).run (List.replicate 5 (ViewOp.down : ViewOp Nat))
        = ScrollingView.new 2) ∧
    ((FixedView.new 2).run (List.replicate 5 (ViewOp.up : ViewOp Nat))).index < 2 ∧
    ((FixedView.new 2).run (List.replicate 5 (ViewOp.down : ViewOp Nat))
        = FixedView.new 2)) :=
  ⟨by decide, by decide, saturation 2 5 (by decide) [0, 1] (by decide)⟩

/-- C2 fails on the fixed strategy: rendering a non-empty 3-element list
with a fresh fixed view of capacity 8 panics (the slice `&items[1..8]` is
out of range), instead of showing 3 rows as the claim states; the same
render with the scrolling strategy succeeds and shows all 3 rows. -/
theorem fixed_render_panics_short_list :
    (FixedView.new 8).render [(0 : Nat), 1, 2] = none ∧
    (ScrollingView.new 8).render [(0 : Nat), 1, 2]
      = some (⟨8, 0, 0⟩, Render.nonEmpty [1, 2] 0 []) := by
  constructor <;> rfl

/-- Filtering by a predicate confined to one equivalence class of the sort
order commutes with `orderedInsert`: the inserted element lands before all
equal elements already present, and after everything strictly greater. -/
theorem filter_orderedInsert {α : Type} (r : α → α → Prop) [DecidableRel r]
    (p : α → Bool) (hp : ∀ a b, p a = true → p b = true → r a b) (a : α) :
    ∀ l : List α, (List.orderedInsert r a l).filter p
      = if p a then a :: l.filter p else l.filter p := by
  intro l
  induction l with
  | nil =>
    by_cases hpa : p a
    · rw [if_pos hpa]
      simp [List.orderedInsert, List.filter_cons_of_pos hpa]
    · rw [if_neg hpa]
      simp [List.orderedInsert, List.filter_cons_of_neg hpa]
  | cons b l ih =>
    rw [List.orderedInsert]
    by_cases hpa : p a
    · rw [if_pos hpa]
      by_cases hr : r a b
      · rw [if_pos hr, List.filter_cons_of_pos hpa]
      · rw [if_neg hr]
        have hpb : ¬ p b = true := by
          intro hb
          exact hr (hp a b hpa hb)
        rw [List.filter_cons_of_neg hpb, List.filter_cons_of_neg hpb, ih, if_pos hpa]
    · rw [if_neg hpa]
      by_cases hr : r a b
      · rw [if_pos hr, List.filter_cons_of_neg hpa]
      · rw [if_neg hr]
        by_cases hpb : p b = true
        · rw [List.filter_cons_of_pos hpb, List.filter_cons_of_pos hpb, ih, if_neg hpa]
        · rw [List.filter_cons_of_neg hpb, List.filter_cons_of_neg hpb, ih, if_neg hpa]
  
/-- Stability of insertion sort on each score class: the subsequence of
elements satisfying a class predicate is unchanged by the sort. -/
theorem filter_insertionSort {α : Type} (r : α → α → Prop) [DecidableRel r]
    (p : α → Bool) (hp : ∀ a b, p a = true → p b = true → r a b) :
    ∀ l : List α, (List.insertionSort r l).filter p = l.filter p := by
  intro l
  induction l with
  | nil => rfl
  | cons a l ih =>
    rw [List.insertionSort, filter_orderedInsert r p hp a _, ih, List.filter_cons]

/-- C8: re-rank correctness and determinism.  `update_matches` is a
permutation of the candidate matches (exactly the items the scorer accepts,
each carrying its score and positions), sorted by descending score; within
each score class the original input order is preserved (stable tie-break);
and recomputing with the same inputs yields an identical list. -/
theorem update_matches_spec {α : Type}
    (scorer : String → String → Option (Int × List Nat))
    (all_items : List (Item α)) (q : String) :
    List.Perm (update_matches scorer all_items q) (candidate_matches scorer all_items q) ∧
    List.Sorted scoreGE (update_matches scorer all_items q) ∧
    (∀ s : Int, (update_matches scorer all_items q).filter (fun m => m.score == s)
        = (candidate_matches scorer all_items q).filter (fun m => m.score == s)) ∧
    (∀ m : ScoredItem α, m ∈ update_matches scorer all_items q ↔
      ∃ f ∈ all_items, scorer f.name q = some (m.score, m.fuzzy_indices) ∧ m.item = f) ∧
    update_matches scorer all_items q = update_matches scorer all_items q := by
  refine ⟨List.perm_insertionSort _ _, List.sorted_insertionSort _ _, ?_, ?_, rfl⟩
  · intro s
    apply filter_insertionSort
    intro a b ha hb
    have ha2 : a.score = s := by simpa using ha
    have hb2 : b.score = s := by simpa using hb
    unfold scoreGE
    rw [ha2, hb2]
  · intro m
    rw [update_matches, List.mem_insertionSort, candidate_matches, List.mem_filterMap]
    constructor
    · rintro ⟨f, hf, hmap⟩
      rw [Option.map_eq_some'] at hmap
      obtain ⟨pr, hp1, hp2⟩ := hmap
      subst hp2
      exact ⟨f, hf, by rw [hp1], rfl⟩
    · rintro ⟨f, hf, hs, hi⟩
      refine ⟨f, hf, ?_⟩
      rw [hs]
      subst hi
      rfl

/-- C9: confirm behaviour.  With an empty ranked match list the
confirmation returns nothing; with a non-empty list it returns the payload
of the engine's currently selected entry, which is an entry of the list. -/
theorem confirm_spec {α : Type} (v : ScrollingView) (ms : List (ScoredItem α))
    (hcap : 0 < v.capacity) :
    (ms = [] → confirm v ms = some none) ∧
    (ms ≠ [] → ∃ m, m ∈ ms ∧
      (∃ st w, v.render ms = some (st, w) ∧ w.selected = some m) ∧
      confirm v ms = some (some m.item.data)) := by
  constructor
  · intro h
    subst h
    rfl
  · intro hne
    obtain ⟨sel, hsel, hrend⟩ := ScrollingView.render_spec v ms hcap hne
    refine ⟨sel, List.getElem?_mem hsel, ⟨_, _, hrend, rfl⟩, ?_⟩
    rw [confirm, if_pos (by simp [List.isEmpty_iff, hne]), hrend]
    rfl

/-- Witness for C9: capacity 1 over a single scored item. -/
theorem confirm_spec_witness :
    (0 : Nat) < 1 ∧
    (([⟨⟨"a", 3⟩, 5, [0]⟩] : List (ScoredItem Nat)) = [] →
      confirm (ScrollingView.new 1) [⟨⟨"a", 3⟩, 5, [0]⟩] = some none) ∧
    (([⟨⟨"a", 3⟩, 5, [0]⟩] : List (ScoredItem Nat)) ≠ [] →
      ∃ m, m ∈ ([⟨⟨"a", 3⟩, 5, [0]⟩] : List (ScoredItem Nat)) ∧
        (∃ st w, (ScrollingView.new 1).render [⟨⟨"a", 3⟩, 5, [0]⟩] = some (st, w) ∧
          w.selected = some m) ∧
        confirm (ScrollingView.new 1) [⟨⟨"a", 3⟩, 5, [0]⟩] = some (some m.item.data)) :=
  ⟨by decide,
    (confirm_spec (ScrollingView.new 1) [⟨⟨"a", 3⟩, 5, [0]⟩] (by decide)).1,
    (confirm_spec (ScrollingView.new 1) [⟨⟨"a", 3⟩, 5, [0]⟩] (by decide)).2⟩

/-- C10 fails on the code: `backspace` slices the query at BYTE position
`chars().count() - 1`.  The character 'é' occupies two UTF-8 bytes, so on
the query "éa" the slice at byte 1 falls inside 'é' and panics; on "éaa"
the slice at byte 2 silently keeps only "é", dropping two characters
instead of the last one. -/
theorem backspace_multibyte_bug :
    backspace ['é', 'a'] = none ∧
    backspace ['é', 'a', 'a'] = some ['é'] ∧
    (['é', 'a', 'a'] : List Char).dropLast = ['é', 'a'] := by
  refine ⟨?_, ?_, ?_⟩ <;> decide

/-- On purely ASCII queries the byte index coincides with the character
index, and `backspace` removes exactly the last character: the intended
behaviour that C10 describes. -/
theorem backspace_ascii (s : List Char) (h : ∀ c ∈ s, c.utf8Size = 1) :
    backspace s = some s.dropLast := by
  have key : ∀ (t : List Char) (k : Nat), (∀ c ∈ t, c.utf8Size = 1) → k ≤ t.length →
      utf8Take k t = some (t.take k) := by
    intro t
    induction t with
    | nil =>
      intro k _ hk
      have hk0 : k = 0 := by simpa using hk
      subst hk0
      rfl
    | cons c cs ih =>
      intro k hall hk
      match k with
      | 0 => rfl
      | k + 1 =>
        have hc : c.utf8Size = 1 := hall c (by simp)
        rw [utf8Take, if_pos (by omega), hc]
        have : k + 1 - 1 = k := by omega
        rw [this, ih k (fun d hd => hall d (by simp [hd])) (by simpa using hk)]
        rfl
  rcases s with _ | ⟨c, cs⟩
  · rfl
  · rw [backspace, if_pos (by simp)]
    rw [key (c :: cs) ((c :: cs).length - 1) h (by omega)]
    rw [List.dropLast_eq_take]
